import Mathlib

set_option maxRecDepth 8000

namespace IndefInt

/-!
Rational numbers in lowest terms, with fully kernel-reducible
arithmetic (a fuel-driven Euclidean gcd), so that every computation of
the embedded engine can be evaluated by `decide`.
-/

/-- Fuel-driven Euclidean gcd (the fuel passed by `mkQ` always
suffices, since remainders strictly decrease). -/
def gcdF : Nat → Nat → Nat → Nat
  | 0, a, _ => a
  | f + 1, a, b => if b = 0 then a else gcdF f b (a % b)

/-- A rational number: integer numerator over positive denominator, in
lowest terms by construction. -/
structure Q where
  n : Int
  d : Nat
deriving DecidableEq

/-- Build the normalized rational `n / d`. -/
def mkQ (n d : Int) : Q :=
  if d = 0 then ⟨0, 1⟩
  else
    let s : Int := if d < 0 then -1 else 1
    let n2 := s * n
    let d2 := (s * d).toNat
    let g := gcdF (n2.natAbs + d2 + 1) n2.natAbs d2
    ⟨n2 / (g : Int), d2 / g⟩

/-- Embed an integer. -/
def qOfInt (z : Int) : Q := ⟨z, 1⟩

/-- Addition. -/
def qAdd (a b : Q) : Q := mkQ (a.n * (b.d : Int) + b.n * (a.d : Int)) ((a.d : Int) * (b.d : Int))

/-- Negation. -/
def qNeg (a : Q) : Q := ⟨-a.n, a.d⟩

/-- Multiplication. -/
def qMul (a b : Q) : Q := mkQ (a.n * b.n) ((a.d : Int) * (b.d : Int))

/-- Reciprocal. -/
def qInv (a : Q) : Q := mkQ (a.d : Int) a.n

instance : OfNat Q m := ⟨qOfInt (m : Int)⟩

instance : Neg Q := ⟨qNeg⟩

instance : Add Q := ⟨qAdd⟩

instance : Sub Q := ⟨fun a b => qAdd a (qNeg b)⟩

instance : Mul Q := ⟨qMul⟩

instance : Div Q := ⟨fun a b => qMul a (qInv b)⟩

instance : Inv Q := ⟨qInv⟩

instance : IntCast Q := ⟨qOfInt⟩

/-!
Shallow embedding of the derivation engine of the
Indefinite-Integration-Generator repository (src/engine.py).

The engine itself (`detect_u_substitution`, `computeCore`, `compute`,
`ComputationResult`) is translated directly from src/engine.py.  The
computer-algebra primitives it calls (sympy's parse, simplify, diff,
integrate, latex) are external collaborators of the repository; they are
modelled from the spec, as documented on each definition.
-/

/-- Symbolic expression tree, mirroring the sympy nodes used by engine.py:
rational constants, symbols, Add, Mul, Pow, the five elementary function
applications the detector inspects (sin, cos, tan, exp, log), and the
unevaluated-integral node returned by the algebra engine when no closed
form is found.  Python builds subtraction as addition of a `(-1)` multiple
and division as multiplication by a `(-1)` power, exactly as sympy does,
so no separate nodes exist for them. -/
inductive Expr where
  | const (q : Q)
  | sym (s : String)
  | add (a b : Expr)
  | mul (a b : Expr)
  | pow (a b : Expr)
  | sin (a : Expr)
  | cos (a : Expr)
  | tan (a : Expr)
  | exp (a : Expr)
  | log (a : Expr)
  | integral (body : Expr) (v : String)
deriving DecidableEq

/-- Constructor tag, used only to build a total order on expressions. -/
def ctorIdx : Expr → Nat
  | .const _ => 0
  | .sym _ => 1
  | .add _ _ => 2
  | .mul _ _ => 3
  | .pow _ _ => 4
  | .sin _ => 5
  | .cos _ => 6
  | .tan _ => 7
  | .exp _ => 8
  | .log _ => 9
  | .integral _ _ => 10

/-- Total-order comparison on rationals (cross-multiplication; the
denominators are positive by construction). -/
def ratCmp (p q : Q) : Ordering :=
  if p.n * (q.d : Int) < q.n * (p.d : Int) then .lt else if p = q then .eq else .gt

/-- Structural total order on expressions (used to make normal forms
canonical, playing the role of sympy's canonical argument ordering). -/
def exprCmp : Expr → Expr → Ordering
  | .const p, .const q => ratCmp p q
  | .sym s, .sym t => compare s t
  | .add a b, .add c d => (exprCmp a c).then (exprCmp b d)
  | .mul a b, .mul c d => (exprCmp a c).then (exprCmp b d)
  | .pow a b, .pow c d => (exprCmp a c).then (exprCmp b d)
  | .sin a, .sin b => exprCmp a b
  | .cos a, .cos b => exprCmp a b
  | .tan a, .tan b => exprCmp a b
  | .exp a, .exp b => exprCmp a b
  | .log a, .log b => exprCmp a b
  | .integral a v, .integral b w => (exprCmp a b).then (compare v w)
  | e1, e2 => compare (ctorIdx e1) (ctorIdx e2)

/-- Structural occurrence of a symbol: sympy's `Expr.has(Symbol)`. -/
def hasSym : Expr → String → Bool
  | .const _, _ => false
  | .sym s, v => s = v
  | .add a b, v => hasSym a v || hasSym b v
  | .mul a b, v => hasSym a v || hasSym b v
  | .pow a b, v => hasSym a v || hasSym b v
  | .sin a, v => hasSym a v
  | .cos a, v => hasSym a v
  | .tan a, v => hasSym a v
  | .exp a, v => hasSym a v
  | .log a, v => hasSym a v
  | .integral a _, v => hasSym a v

/-- Structural substitution of one sub-expression by another:
sympy's `Expr.subs(target, replacement)` as used by the detector, which
replaces every structural occurrence of the target. -/
def subsE (e target repl : Expr) : Expr :=
  if e = target then repl
  else
    match e with
    | .add a b => .add (subsE a target repl) (subsE b target repl)
    | .mul a b => .mul (subsE a target repl) (subsE b target repl)
    | .pow a b => .pow (subsE a target repl) (subsE b target repl)
    | .sin a => .sin (subsE a target repl)
    | .cos a => .cos (subsE a target repl)
    | .tan a => .tan (subsE a target repl)
    | .exp a => .exp (subsE a target repl)
    | .log a => .log (subsE a target repl)
    | .integral a v => .integral (subsE a target repl) v
    | e => e

/-- Multiplicative factors of a (possibly nested) product: sympy's
`Mul.args`, which are the flattened factors of the product. -/
def mulArgs : Expr → List Expr
  | .mul a b => mulArgs a ++ mulArgs b
  | e => [e]

/-- Top-level product test: sympy's `Expr.is_Mul`. -/
def isMul : Expr → Bool
  | .mul _ _ => true
  | _ => false

/-- Top-level power test: sympy's `Expr.is_Pow`. -/
def isPow : Expr → Bool
  | .pow _ _ => true
  | _ => false

/-!
Normal forms: sums of rational-coefficient monomials over atomic kernels
(symbols, function applications, residual powers), with integer kernel
exponents.  This is the model of the algebra engine's simplifier.
-/

/-- A factor: an atomic kernel raised to an integer exponent. -/
abbrev Factor := Expr × Int

/-- A monomial: a rational coefficient times a list of factors. -/
abbrev Mon := Q × List Factor

/-- A normal form: a list of monomials (interpreted as their sum). -/
abbrev NF := List Mon

/-- Order on factors: by kernel, then by exponent. -/
def factorCmp (f g : Factor) : Ordering :=
  (exprCmp f.1 g.1).then (compare f.2 g.2)

/-- Insert into a sorted list. -/
def insertBy {α : Type} (c : α → α → Ordering) (a : α) : List α → List α
  | [] => [a]
  | b :: l =>
    match c a b with
    | .gt => b :: insertBy c a l
    | _ => a :: b :: l

/-- Insertion sort. -/
def sortBy {α : Type} (c : α → α → Ordering) : List α → List α
  | [] => []
  | a :: l => insertBy c a (sortBy c l)

/-- Combine adjacent factors with equal kernels by adding exponents
(the sorted-list analogue of sympy's automatic power merging in `Mul`). -/
def collapseFactors : List Factor → List Factor
  | [] => []
  | (k1, n1) :: rest =>
    match collapseFactors rest with
    | [] => [(k1, n1)]
    | (k2, n2) :: tail =>
      if k1 = k2 then (k1, n1 + n2) :: tail else (k1, n1) :: (k2, n2) :: tail

/-- Sort, merge equal kernels, and drop zero exponents. -/
def normFactors (l : List Factor) : List Factor :=
  (collapseFactors (sortBy factorCmp l)).filter (fun f => !(f.2 == 0))

/-- Multiply two monomials. -/
def monMul (m1 m2 : Mon) : Mon :=
  (m1.1 * m2.1, normFactors (m1.2 ++ m2.2))

/-- Lexicographic comparison of lists. -/
def listCmp {α : Type} (c : α → α → Ordering) : List α → List α → Ordering
  | [], [] => .eq
  | [], _ :: _ => .lt
  | _ :: _, [] => .gt
  | a :: l, b :: m => (c a b).then (listCmp c l m)

/-- Order on monomials by their factor part (coefficients are merged). -/
def monCmp (m1 m2 : Mon) : Ordering :=
  listCmp factorCmp m1.2 m2.2

/-- Combine adjacent monomials with equal factor parts by adding
coefficients (like-term collection). -/
def collapseMons : List Mon → List Mon
  | [] => []
  | (q1, f1) :: rest =>
    match collapseMons rest with
    | [] => [(q1, f1)]
    | (q2, f2) :: tail =>
      if f1 = f2 then (q1 + q2, f1) :: tail else (q1, f1) :: (q2, f2) :: tail

/-- Sort, collect like terms, and drop zero coefficients. -/
def normNF (l : List Mon) : NF :=
  (collapseMons (sortBy monCmp l)).filter (fun m => !(m.1 == 0))

/-- Addition of normal forms. -/
def nfAdd (a b : NF) : NF := normNF (a ++ b)

/-- Multiplication of normal forms (distributes over the sums). -/
def nfMul (a b : NF) : NF :=
  normNF (a.flatMap fun m1 => b.map fun m2 => monMul m1 m2)

/-- The normal form of a rational constant. -/
def nfConst (q : Q) : NF := if q = 0 then [] else [(q, [])]

/-- The normal form 1. -/
def nfOne : NF := [((1 : Q), ([] : List Factor))]

/-- Natural power of a normal form. -/
def nfPowNat : NF → Nat → NF
  | _, 0 => nfOne
  | a, n + 1 => nfMul a (nfPowNat a n)

/-- Is this normal form an integer constant? -/
def nfToInt (nf : NF) : Option Int :=
  match nf with
  | [] => some 0
  | [(q, [])] => if q.d = 1 then some q.n else none
  | _ => none

/-- Render a factor back to an expression. -/
def reifyFactor : Factor → Expr
  | (k, 1) => k
  | (k, n) => .pow k (.const (n : Q))

/-- Render a factor list back as a right-nested product. -/
def reifyProd : List Factor → Expr
  | [] => .const 1
  | [f] => reifyFactor f
  | f :: rest => .mul (reifyFactor f) (reifyProd rest)

/-- Render a monomial back to an expression. -/
def reifyMon : Mon → Expr
  | (q, []) => .const q
  | (q, fs) => if q = 1 then reifyProd fs else .mul (.const q) (reifyProd fs)

/-- Render a normal form back to an expression. -/
def reifyNF : NF → Expr
  | [] => .const 0
  | [m] => reifyMon m
  | m :: rest => .add (reifyMon m) (reifyNF rest)

/-- Integer power of a normal form; a negative power inverts a monomial
exponent-wise, and wraps a sum as an atomic power kernel otherwise. -/
def nfIntPow (a : NF) (n : Int) : NF :=
  if 0 ≤ n then nfPowNat a n.toNat
  else
    match a with
    | [(q, fs)] => nfPowNat [(q⁻¹, fs.map fun f => (f.1, -f.2))] (-n).toNat
    | _ => [((1 : Q), [(Expr.pow (reifyNF a) (.const (n : Q)), 1)])]

/-- The normal form of a single atomic kernel. -/
def nfKernel (e : Expr) : NF := [((1 : Q), [(e, 1)])]

/-- Compute the normal form of an expression: constants fold, sums and
products flatten and collect, integer powers expand or invert, and
everything else becomes an atomic kernel with a normalized argument. -/
def nfOfExpr : Expr → NF
  | .const q => nfConst q
  | .sym s => nfKernel (.sym s)
  | .add a b => nfAdd (nfOfExpr a) (nfOfExpr b)
  | .mul a b => nfMul (nfOfExpr a) (nfOfExpr b)
  | .pow a b =>
    let na := nfOfExpr a
    let nb := nfOfExpr b
    match nfToInt nb with
    | some n => nfIntPow na n
    | none => nfKernel (.pow (reifyNF na) (reifyNF nb))
  | .sin a =>
    let na := nfOfExpr a
    if na = [] then [] else nfKernel (.sin (reifyNF na))
  | .cos a =>
    let na := nfOfExpr a
    if na = [] then nfOne else nfKernel (.cos (reifyNF na))
  | .tan a =>
    let na := nfOfExpr a
    if na = [] then [] else nfKernel (.tan (reifyNF na))
  | .exp a =>
    let na := nfOfExpr a
    if na = [] then nfOne else nfKernel (.exp (reifyNF na))
  | .log a =>
    let na := nfOfExpr a
    if na = nfOne then [] else nfKernel (.log (reifyNF na))
  | .integral a v => nfKernel (.integral (reifyNF (nfOfExpr a)) v)

/-- Modelled from the spec: the algebra engine's `simplify`
(`simplify(Expression) -> Expression`, §6), realized as normalization to
a canonical sum of rational-coefficient monomials over atomic kernels.
It cancels common monomial factors, collects like terms, and folds
rational arithmetic, which is the behaviour of sympy's simplifier that
engine.py relies on. -/
def simplify (e : Expr) : Expr := reifyNF (nfOfExpr e)

/-- Raw symbolic differentiation rules (product, power, chain rules and
the derivatives of the five elementary functions; differentiating an
unevaluated integral in its own variable returns the integrand, and in
any other variable differentiates under the integral sign). -/
def rawDiff : Expr → String → Expr
  | .const _, _ => .const 0
  | .sym s, v => if s = v then .const 1 else .const 0
  | .add a b, v => .add (rawDiff a v) (rawDiff b v)
  | .mul a b, v => .add (.mul (rawDiff a v) b) (.mul a (rawDiff b v))
  | .pow a (.const n), v =>
    .mul (.mul (.const n) (.pow a (.const (n - 1)))) (rawDiff a v)
  | .pow a b, v =>
    .mul (.pow a b)
      (.add (.mul (rawDiff b v) (.log a))
        (.mul b (.mul (rawDiff a v) (.pow a (.const (-1))))))
  | .sin a, v => .mul (.cos a) (rawDiff a v)
  | .cos a, v => .mul (.mul (.const (-1)) (.sin a)) (rawDiff a v)
  | .tan a, v => .mul (.add (.const 1) (.pow (.tan a) (.const 2))) (rawDiff a v)
  | .exp a, v => .mul (.exp a) (rawDiff a v)
  | .log a, v => .mul (rawDiff a v) (.pow a (.const (-1)))
  | .integral a w, v => if w = v then a else .integral (rawDiff a v) w

/-- Modelled from the spec: the algebra engine's symbolic differentiation
(`differentiate(Expression, variable) -> Expression`, §6).  The raw
derivative is normalized, matching sympy's automatically evaluated
derivative output. -/
def diff (e : Expr) (v : String) : Expr := simplify (rawDiff e v)

/-- Is the constant monomial-free part of this normal form linear in `v`,
that is of the shape `a*v + b` with rational `a`, `b`?  Returns `(a, b)`. -/
def linOf : NF → String → Option (Q × Q)
  | [], _ => some (0, 0)
  | (q, [(Expr.sym s, 1)]) :: rest, v =>
    if s = v then (linOf rest v).map (fun p => (p.1 + q, p.2)) else none
  | (q, []) :: rest, v => (linOf rest v).map (fun p => (p.1, p.2 + q))
  | _, _ => none

/-- Elementary-function kernels recognized by the integrator, with a tag. -/
def funParts : Expr → Option (Nat × Expr)
  | .sin g => some (0, g)
  | .cos g => some (1, g)
  | .exp g => some (2, g)
  | .tan g => some (3, g)
  | .log g => some (4, g)
  | _ => none

/-- Antiderivative (in the composition pattern `c * f(g) * dg`) of each
recognized elementary function. -/
def antiOf (tag : Nat) (g : Expr) : Expr :=
  match tag with
  | 0 => .mul (.const (-1)) (.cos g)
  | 1 => .sin g
  | 2 => .exp g
  | 3 => .mul (.const (-1)) (.log (.cos g))
  | _ => .add (.mul g (.log g)) (.mul (.const (-1)) g)

/-- Search the factors of a monomial for an elementary-function kernel
`f(g)` occurring to the first power such that the remaining factors are a
`v`-free multiple of `dg/dv`; on success the term is `c * f(g) * dg` and
its antiderivative is `c * F(g)`. -/
def tryFgGo (q : Q) (v : String) : List Factor → List Factor → Option Expr
  | _, [] => none
  | acc, (k, n) :: rest =>
    let attempt : Option Expr :=
      if n = 1 then
        match funParts k with
        | some (tag, g) =>
          let dg := diff g v
          if dg = .const 0 then none
          else
            let quotE :=
              simplify (.mul (reifyMon (q, acc ++ rest)) (.pow dg (.const (-1))))
            if hasSym quotE v then none
            else some (.mul quotE (antiOf tag g))
        | none => none
      else none
    match attempt with
    | some e => some e
    | none => tryFgGo q v (acc ++ [(k, n)]) rest

/-- Integrate one monomial with respect to `v`: constant rule, power
rule, `1/v`, linear-argument kernel powers, and the first-power
elementary-composition pattern `c * f(g(v)) * dg/dv`.  Returns `none`
when the term matches no supported closed-form pattern. -/
def integrateMon (q : Q) (fs : List Factor) (v : String) : Option Expr :=
  let vf := fs.filter (fun f => hasSym f.1 v)
  let cf := fs.filter (fun f => !(hasSym f.1 v))
  match vf with
  | [] => some (reifyMon (q, normFactors (cf ++ [(Expr.sym v, 1)])))
  | [(Expr.sym s, n)] =>
    if n = -1 then some (.mul (reifyMon (q, cf)) (.log (.sym s)))
    else some (reifyMon (q / ((n : Q) + 1), normFactors (cf ++ [(Expr.sym s, n + 1)])))
  | [(k, n)] =>
    if n = 1 then tryFgGo q v [] fs
    else
      match linOf (nfOfExpr k) v with
      | some (a, _) =>
        if a = 0 then none
        else if n = -1 then some (.mul (reifyMon (q / a, cf)) (.log k))
        else some (.mul (reifyMon (q / (a * ((n : Q) + 1)), cf)) (.pow k (.const ((n : Q) + 1))))
      | none => none
  | _ => tryFgGo q v [] fs

/-- Integrate every monomial of a normal form, failing as a whole if any
term has no supported pattern. -/
def integrateNF : NF → String → Option (List Expr)
  | [], _ => some []
  | (q, fs) :: rest, v =>
    match integrateMon q fs v, integrateNF rest v with
    | some a, some l => some (a :: l)
    | _, _ => none

/-- Sum of a list of expressions. -/
def sumE : List Expr → Expr
  | [] => .const 0
  | [a] => a
  | a :: l => .add a (sumE l)

/-- Modelled from the spec: the algebra engine's integration
(`integrate(Expression, variable) -> Expression | UnevaluatedIntegral`,
§6).  Basic closed-form patterns (linearity, power rule, elementary
functions, first-power composition with a cleanly dividing inner
derivative) produce an expression; anything else — such as `exp(-x**2)`,
which the spec's unsupported scenario stipulates has no closed form —
returns the unevaluated integral construct. -/
def integrate (e : Expr) (v : String) : Expr :=
  match integrateNF (nfOfExpr e) v with
  | some parts => simplify (sumE parts)
  | none => .integral e v

/-- Top-level unevaluated-integral test: Python's
`isinstance(antiderivative, sp.Integral)`. -/
def isIntegralTop : Expr → Bool
  | .integral _ _ => true
  | _ => false

/-!
Parsing: a model of `sympy.sympify` on the textual notation the spec
describes (integers, identifiers, `+ - * / ** ^`, parentheses, calls to
the five elementary functions; `^` is read as exponentiation, a digit
immediately followed by a letter is a syntax error, exactly as sympy
rejects `3x`).
-/

/-- Lexical tokens. -/
inductive Tok where
  | num (n : Int)
  | ident (s : String)
  | plus
  | minus
  | star
  | slash
  | dstar
  | lpar
  | rpar
deriving DecidableEq

/-- Decimal digit test. -/
def isDigit (c : Char) : Bool := '0' ≤ c && c ≤ '9'

/-- Letter test. -/
def isAlpha (c : Char) : Bool := ('a' ≤ c && c ≤ 'z') || ('A' ≤ c && c ≤ 'Z')

/-- Scan a decimal number. -/
def scanNum : List Char → Int → Int × List Char
  | [], acc => (acc, [])
  | c :: cs, acc =>
    if isDigit c then scanNum cs (acc * 10 + ((c.toNat : Int) - ('0'.toNat : Int)))
    else (acc, c :: cs)

/-- Scan an identifier. -/
def scanIdent : List Char → List Char → String × List Char
  | [], acc => (String.mk acc.reverse, [])
  | c :: cs, acc =>
    if isAlpha c then scanIdent cs (c :: acc)
    else (String.mk acc.reverse, c :: cs)

/-- Syntax-error message used by the modelled parser. -/
def syntaxErr : String := "invalid syntax in expression"

/-- Tokenizer (fuel-driven). -/
def tokenize (fuel : Nat) (cs : List Char) : Except String (List Tok)
  := match fuel, cs with
  | _, [] => .ok []
  | 0, _ => .error syntaxErr
  | f + 1, c :: cs =>
    if c = ' ' then tokenize f cs
    else if isDigit c then
      let p := scanNum (c :: cs) 0
      match p.2 with
      | d :: _ =>
        if isAlpha d then .error syntaxErr
        else
          match tokenize f p.2 with
          | .ok ts => .ok (.num p.1 :: ts)
          | .error m => .error m
      | [] => .ok [.num p.1]
    else if isAlpha c then
      let p := scanIdent (c :: cs) []
      match tokenize f p.2 with
      | .ok ts => .ok (.ident p.1 :: ts)
      | .error m => .error m
    else if c = '*' then
      match cs with
      | '*' :: rest =>
        match tokenize f rest with
        | .ok ts => .ok (.dstar :: ts)
        | .error m => .error m
      | _ =>
        match tokenize f cs with
        | .ok ts => .ok (.star :: ts)
        | .error m => .error m
    else
      let tk : Except String Tok :=
        if c = '+' then .ok .plus
        else if c = '-' then .ok .minus
        else if c = '/' then .ok .slash
        else if c = '^' then .ok .dstar
        else if c = '(' then .ok .lpar
        else if c = ')' then .ok .rpar
        else .error syntaxErr
      match tk with
      | .error m => .error m
      | .ok t =>
        match tokenize f cs with
        | .ok ts => .ok (t :: ts)
        | .error m => .error m

/-- Parser modes: sum, product, unary, power, atom levels, plus the
continuation modes carrying a left operand. -/
inductive PMode where
  | sum
  | sumRest (acc : Expr)
  | prod
  | prodRest (acc : Expr)
  | unary
  | pw
  | atom
deriving DecidableEq

/-- Recursive-descent parser over the token list (fuel-driven, all calls
structurally decrease the fuel).  Subtraction becomes a `(-1)` multiple
and division a `(-1)` power, as sympy builds them; exponentiation is
right-associative; unary minus binds looser than exponentiation. -/
def parseGo (fuel : Nat) (m : PMode) (ts : List Tok) : Except String (Expr × List Tok) :=
  match fuel with
  | 0 => .error syntaxErr
  | f + 1 =>
    match m, ts with
    | .sum, _ =>
      match parseGo f .prod ts with
      | .error msg => .error msg
      | .ok (e, rest) => parseGo f (.sumRest e) rest
    | .sumRest acc, .plus :: rest =>
      match parseGo f .prod rest with
      | .error msg => .error msg
      | .ok (e, rest2) => parseGo f (.sumRest (.add acc e)) rest2
    | .sumRest acc, .minus :: rest =>
      match parseGo f .prod rest with
      | .error msg => .error msg
      | .ok (e, rest2) => parseGo f (.sumRest (.add acc (.mul (.const (-1)) e))) rest2
    | .sumRest acc, _ => .ok (acc, ts)
    | .prod, _ =>
      match parseGo f .unary ts with
      | .error msg => .error msg
      | .ok (e, rest) => parseGo f (.prodRest e) rest
    | .prodRest acc, .star :: rest =>
      match parseGo f .unary rest with
      | .error msg => .error msg
      | .ok (e, rest2) => parseGo f (.prodRest (.mul acc e)) rest2
    | .prodRest acc, .slash :: rest =>
      match parseGo f .unary rest with
      | .error msg => .error msg
      | .ok (e, rest2) => parseGo f (.prodRest (.mul acc (.pow e (.const (-1))))) rest2
    | .prodRest acc, _ => .ok (acc, ts)
    | .unary, .minus :: rest =>
      match parseGo f .unary rest with
      | .error msg => .error msg
      | .ok (e, rest2) => .ok (.mul (.const (-1)) e, rest2)
    | .unary, _ => parseGo f .pw ts
    | .pw, _ =>
      match parseGo f .atom ts with
      | .error msg => .error msg
      | .ok (a, rest) =>
        match rest with
        | .dstar :: rest2 =>
          match parseGo f .unary rest2 with
          | .error msg => .error msg
          | .ok (b, rest3) => .ok (.pow a b, rest3)
        | _ => .ok (a, rest)
    | .atom, .num n :: rest => .ok (.const (n : Q), rest)
    | .atom, .ident s :: .lpar :: rest =>
      match parseGo f .sum rest with
      | .error msg => .error msg
      | .ok (arg, rest2) =>
        match rest2 with
        | .rpar :: rest3 =>
          if s = "sin" then .ok (.sin arg, rest3)
          else if s = "cos" then .ok (.cos arg, rest3)
          else if s = "tan" then .ok (.tan arg, rest3)
          else if s = "exp" then .ok (.exp arg, rest3)
          else if s = "log" then .ok (.log arg, rest3)
          else .error syntaxErr
        | _ => .error syntaxErr
    | .atom, .ident s :: rest => .ok (.sym s, rest)
    | .atom, .lpar :: rest =>
      match parseGo f .sum rest with
      | .error msg => .error msg
      | .ok (e, rest2) =>
        match rest2 with
        | .rpar :: rest3 => .ok (e, rest3)
        | _ => .error syntaxErr
    | .atom, _ => .error syntaxErr

/-- Modelled from the spec: the algebra engine's parser
(`parse(text) -> Expression`, §6, "fails with a syntax/type error for
malformed input"), wrapping `sympy.sympify` as a total function into
`Except`. -/
def sympify (s : String) : Except String Expr :=
  match tokenize (s.length * 2 + 8) s.data with
  | .error m => .error m
  | .ok ts =>
    match parseGo (ts.length * 8 + 32) .sum ts with
    | .error m => .error m
    | .ok (e, []) => .ok e
    | .ok (_, _ :: _) => .error syntaxErr

/-- The parse result as an `Option` (used to state theorems about
parsing without an equality test on `Except`). -/
def parseOf (s : String) : Option Expr := (sympify s).toOption

/-!
The engine (translated from src/engine.py).
-/

/-- The engine's integration variable `self.x = sp.Symbol('x')`. -/
def xName : String := "x"

/-- The engine's substitution placeholder `self.u = sp.Symbol('u')`. -/
def uName : String := "u"

/-- The integration variable as an expression. -/
def xSymE : Expr := .sym xName

/-- The placeholder symbol as an expression. -/
def uSymE : Expr := .sym uName

/-- Candidates harvested from one multiplicative factor
(engine.py lines 29-38): for a power, its base and then its exponent;
for a call to one of the five elementary functions, its argument —
each provided it depends on `x` and is not `x` itself. -/
def harvestArg : Expr → List Expr
  | .pow b ex =>
    (if hasSym b xName && !(b == xSymE) then [b] else []) ++
      (if hasSym ex xName && !(ex == xSymE) then [ex] else [])
  | .sin a => if hasSym a xName && !(a == xSymE) then [a] else []
  | .cos a => if hasSym a xName && !(a == xSymE) then [a] else []
  | .tan a => if hasSym a xName && !(a == xSymE) then [a] else []
  | .exp a => if hasSym a xName && !(a == xSymE) then [a] else []
  | .log a => if hasSym a xName && !(a == xSymE) then [a] else []
  | _ => []

/-- All candidates, in factor order (engine.py `u_candidates`). -/
def harvestCandidates (e : Expr) : List Expr :=
  (mulArgs e).flatMap harvestArg

/-- One iteration of the candidate-testing loop (engine.py lines 40-52):
compute the derivative, skip if it is zero; skip if the simplified ratio
of the integrand to the derivative still contains `x`; skip if the
simplified substituted-and-divided integrand still contains `x`;
otherwise return the candidate triple. -/
def testCandidate (expr w : Expr) : Option (Expr × Expr × Expr) :=
  let du := diff w xName
  if du = .const 0 then none
  else
    let quotE := simplify (.mul expr (.pow du (.const (-1))))
    if hasSym quotE xName then none
    else
      let ui := simplify (.mul (subsE expr w uSymE) (.pow du (.const (-1))))
      if hasSym ui xName then none
      else some (w, du, ui)

/-- The candidate loop: first passing candidate wins. -/
def detectLoop (expr : Expr) : List Expr → Option (Expr × Expr × Expr)
  | [] => none
  | w :: rest =>
    match testCandidate expr w with
    | some t => some t
    | none => detectLoop expr rest

/-- `IntegrationEngine._detect_u_substitution` (engine.py lines 22-54):
only top-level products are considered; candidates are harvested from
the factors and tested in order; the first passing candidate is
returned, otherwise no candidate. -/
def detect_u_substitution (expr : Expr) : Option (Expr × Expr × Expr) :=
  if isMul expr then detectLoop expr (harvestCandidates expr) else none

/-- `ComputationResult` (engine.py lines 6-15); the summary dictionary is
an association list. -/
structure ComputationResult where
  given : String := ""
  method : String := ""
  steps : List String := []
  final_answer : String := ""
  verification : String := ""
  summary : List (String × String) := []
  is_success : Bool := false
  error_message : String := ""
deriving DecidableEq

/-- Modelled from the spec: the algebra engine's display rendering
(`toDisplayForm(Expression) -> string`, §6), as a deterministic fully
parenthesized printer (the exact notation is presentation, not logic). -/
def ratStr (q : Q) : String :=
  if q.d = 1 then toString q.n else toString q.n ++ "/" ++ toString q.d

/-- Display form of an expression (model of `sp.latex`). -/
def latexOf : Expr → String
  | .const q => ratStr q
  | .sym s => s
  | .add a b => "(" ++ latexOf a ++ " + " ++ latexOf b ++ ")"
  | .mul a b => "(" ++ latexOf a ++ "*" ++ latexOf b ++ ")"
  | .pow a b => "(" ++ latexOf a ++ "**" ++ latexOf b ++ ")"
  | .sin a => "sin(" ++ latexOf a ++ ")"
  | .cos a => "cos(" ++ latexOf a ++ ")"
  | .tan a => "tan(" ++ latexOf a ++ ")"
  | .exp a => "exp(" ++ latexOf a ++ ")"
  | .log a => "log(" ++ latexOf a ++ ")"
  | .integral a v => "Integral(" ++ latexOf a ++ ", " ++ v ++ ")"

/-- The method label of the basic branch (engine.py line 85). -/
def basicMethodLabel : String := "Basic Standard Patterns"

/-- The method label of the substitution branch (engine.py line 69). -/
def subMethodLabel : String := "Integration by Substitution"

/-- The message of the `ValueError` raised when the algebra engine
returns an unevaluated integral (engine.py line 89). -/
def advErrMsg : String :=
  "Requires advanced techniques beyond Basic Patterns/U-Sub, or has no closed-form solution."

/-- Failure-message prefix (engine.py line 116). -/
def errIntro : String := "Error: "

/-- Verification qualifier on a zero residual (engine.py line 103). -/
def verifSuccessTag : String :=
  " Verification Successful: Derivative matches the integrand."

/-- Verification qualifier on a nonzero residual (engine.py line 105). -/
def verifWarnTag : String :=
  " Verification Warning: Symbolic equivalence to 0 not trivially established."

/-- Opening text of the rendered problem statement. -/
def givenPrefixStr : String := "integral of ( "

/-- Closing text of the rendered problem statement. -/
def givenSuffixStr : String := " ) dx"

/-- The problem statement (engine.py line 62). -/
def givenOf (e : Expr) : String :=
  givenPrefixStr ++ latexOf e ++ givenSuffixStr

/-- The identify step (engine.py line 63). -/
def identifyStep (e : Expr) : String :=
  "Identify the integrand: f(x) = " ++ latexOf e

/-- The add-constant step (engine.py lines 82 and 92). -/
def addConstStep : String := "Add the constant of integration, C."

/-- The substitution-branch steps (engine.py lines 71-82). -/
def subStepsList (w du ui adu ad : Expr) : List String :=
  [ "Let u = " ++ latexOf w,
    "Differentiate u: du/dx = " ++ latexOf du,
    "Isolate dx: dx = du/(" ++ latexOf du ++ ")",
    "Substitute into original integral:",
    "integral of ( " ++ latexOf ui ++ " ) du",
    "Evaluate integral: " ++ latexOf adu,
    "Substitute u back: " ++ latexOf ad,
    addConstStep ]

/-- The basic-branch evaluation step (engine.py line 91). -/
def evalStep (ad : Expr) : String :=
  "Evaluate using basic rules: " ++ latexOf ad

/-- The back-check line of the verification text (engine.py line 100). -/
def verifText (ad d : Expr) : String :=
  "Back-check by differentiating: d/dx[" ++ latexOf ad ++ "] = " ++ latexOf d

/-- The verification phase plus final-answer assembly shared by both
branches (engine.py lines 94-105): render the final answer with the
constant appended, differentiate the antiderivative, and attach the
successful or warning qualifier according to whether the simplified
residual is zero. -/
def finishSuccess (g m : String) (stps : List String) (ad e : Expr) : ComputationResult :=
  let d := diff ad xName
  let residual := simplify (.add e (.mul (.const (-1)) d))
  { given := g
    method := m
    steps := stps
    final_answer := latexOf ad ++ " + C"
    verification :=
      verifText ad d ++ (if residual = .const 0 then verifSuccessTag else verifWarnTag)
    is_success := true }

/-- `IntegrationEngine.compute` without the timing summary
(engine.py lines 56-118): parse, record the problem statement and the
identify step, run the detector; on a candidate follow the substitution
branch (which performs no unevaluated-integral check); otherwise
integrate directly and convert a top-level unevaluated integral into the
`ValueError` failure; exceptions become a failure result whose fields
populated so far are retained, with `error_message` set to the
exception text prefixed by `Error: `. -/
def computeCore (s : String) : ComputationResult :=
  match sympify s with
  | .error msg => { is_success := false, error_message := errIntro ++ msg }
  | .ok e =>
    let g := givenOf e
    let st0 := [identifyStep e]
    match detect_u_substitution e with
    | some (w, du, ui) =>
      let adu := integrate ui uName
      let ad := subsE adu uSymE w
      finishSuccess g subMethodLabel (st0 ++ subStepsList w du ui adu ad) ad e
    | none =>
      let ad := integrate e xName
      if isIntegralTop ad then
        { given := g
          method := basicMethodLabel
          steps := st0
          is_success := false
          error_message := errIntro ++ advErrMsg }
      else
        finishSuccess g basicMethodLabel (st0 ++ [evalStep ad, addConstStep]) ad e

/-- `IntegrationEngine.compute` (engine.py lines 56-118).  The wall
clock is external input, passed as the start and end instants (in
seconds) and the formatted timestamp; on success they populate the
summary exactly as lines 107-111 do, and on failure the summary is left
empty. -/
def compute (startTime nowTime : Q) (timestamp : String) (s : String) : ComputationResult :=
  let c := computeCore s
  if c.is_success then
    { c with
      summary :=
        [ ("Runtime", ratStr ((nowTime - startTime) * 1000) ++ " ms"),
          ("Iterations", "1"),
          ("Timestamp", timestamp) ] }
  else c

/-- The antiderivative the engine computes for a parsed integrand
(the value bound to `antiderivative` in compute on each branch). -/
def antiderivativeOf (e : Expr) : Expr :=
  match detect_u_substitution e with
  | some (w, _, ui) => subsE (integrate ui uName) uSymE w
  | none => integrate e xName

/-- The verification residual for a parsed integrand
(engine.py lines 97-98). -/
def residualOf (e : Expr) : Expr :=
  simplify (.add e (.mul (.const (-1)) (diff (antiderivativeOf e) xName)))

/-!
Concrete inputs used by the claims.
-/

/-- A sample timestamp value for the external clock input. -/
def tsSample : String := "2024-01-01 00:00:00"

/-- The symbol name `y`, used by inputs that carry extra free symbols. -/
def yName : String := "y"

/-- The spec's substitution-scenario input. -/
def subScenarioInput : String := "x*sin(x**2)"

/-- The parse of the substitution-scenario input. -/
def subScenarioExpr : Expr :=
  .mul (.sym xName) (.sin (.pow (.sym xName) (.const 2)))

/-- The spec's claimed antiderivative for the substitution scenario. -/
def subScenarioAnswer : Expr :=
  .mul (.const (-1/2)) (.cos (.pow (.sym xName) (.const 2)))

/-- The spec's linearity-baseline input. -/
def baselineInput : String := "3*x**2 + 2*x"

/-- The parse of the linearity-baseline input. -/
def baselineExpr : Expr :=
  .add (.mul (.const 3) (.pow (.sym xName) (.const 2))) (.mul (.const 2) (.sym xName))

/-- The spec's claimed antiderivative for the baseline. -/
def baselineAnswer : Expr :=
  .add (.pow (.sym xName) (.const 3)) (.pow (.sym xName) (.const 2))

/-- The spec's unsupported-scenario input. -/
def unsupInput : String := "exp(-x**2)"

/-- The parse of the unsupported-scenario input. -/
def unsupExpr : Expr :=
  .exp (.mul (.const (-1)) (.pow (.sym xName) (.const 2)))

/-- The spec's malformed-input scenario. -/
def malformedInput : String := "3x^^2"

/-- An integrand on which the detector accepts a candidate: the
placeholder symbol `u` already occurs in the input, the `sin(x*y)`
factors cancel against the denominators inside the sum, and the ratio
tests pass with `u_expr = x*y`, `du = y`, `u_integrand = 1 + u`. -/
def captureInput : String := "sin(x*y)*(y*u/sin(x*y) + y/sin(x*y))"

/-- The parse of `captureInput`. -/
def captureExpr : Expr :=
  match sympify captureInput with
  | .ok e => e
  | .error _ => .const 0

/-- The accepted candidate expression `x*y`. -/
def wXY : Expr := .mul (.sym xName) (.sym yName)

/-- Its derivative `y`. -/
def duY : Expr := .sym yName

/-- The accepted rewritten integrand `1 + u` of `captureInput`. -/
def captureUi : Expr := .add (.const 1) (.sym uName)

/-- A variant of `captureInput` whose accepted rewritten integrand is
`1 + exp(-u**2)`, which the algebra engine cannot integrate in closed
form, exercising the substitution branch with an unevaluated integral. -/
def unevalSubInput : String := "sin(x*y)*(y*exp(-u**2)/sin(x*y) + y/sin(x*y))"

/-- The parse of `unevalSubInput`. -/
def unevalSubExpr : Expr :=
  match sympify unevalSubInput with
  | .ok e => e
  | .error _ => .const 0

/-- The accepted rewritten integrand `1 + exp(-u**2)` of `unevalSubInput`. -/
def unevalSubUi : Expr :=
  .add (.const 1) (.exp (.mul (.const (-1)) (.pow (.sym uName) (.const 2))))

/-- The three acceptance conditions of the candidate loop, together with
how the accepted triple is formed: the derivative is not identically
zero, the simplified ratio of the integrand to the derivative is free of
the variable, and the simplified substituted-and-divided integrand is
free of the variable. -/
abbrev acceptsTriple (expr w du ui : Expr) : Prop :=
  du = diff w xName ∧
  du ≠ Expr.const 0 ∧
  hasSym (simplify (.mul expr (.pow du (.const (-1))))) xName = false ∧
  ui = simplify (.mul (subsE expr w uSymE) (.pow du (.const (-1)))) ∧
  hasSym ui xName = false

/-- A candidate fails at least one of the three tests of the loop. -/
abbrev rejectsCandidate (expr v : Expr) : Prop :=
  diff v xName = Expr.const 0 ∨
  hasSym (simplify (.mul expr (.pow (diff v xName) (.const (-1))))) xName = true ∨
  hasSym (simplify (.mul (subsE expr v uSymE) (.pow (diff v xName) (.const (-1))))) xName = true

/-!
Helper lemmas.
-/

theorem testCandidate_eq_none_iff (expr v : Expr) :
    testCandidate expr v = none ↔ rejectsCandidate expr v := by
  unfold testCandidate rejectsCandidate
  by_cases h1 : diff v xName = Expr.const 0
  · simp [h1]
  · simp only [h1, if_false, if_neg h1]
    by_cases h2 :
        hasSym (simplify (.mul expr (.pow (diff v xName) (.const (-1))))) xName = true
    · simp [h1, h2]
    · by_cases h3 :
          hasSym (simplify (.mul (subsE expr v uSymE) (.pow (diff v xName) (.const (-1))))) xName = true
      · simp [h1, h2, h3]
      · simp [h1, h2, h3]

theorem testCandidate_eq_some_iff (expr v w du ui : Expr) :
    testCandidate expr v = some (w, du, ui) ↔ v = w ∧ acceptsTriple expr w du ui := by
  constructor
  · intro hc
    unfold testCandidate at hc
    by_cases h1 : diff v xName = Expr.const 0
    · simp [h1] at hc
    · simp only [if_neg h1] at hc
      by_cases h2 :
          hasSym (simplify (.mul expr (.pow (diff v xName) (.const (-1))))) xName = true
      · simp [h2] at hc
      · by_cases h3 :
            hasSym (simplify (.mul (subsE expr v uSymE) (.pow (diff v xName) (.const (-1))))) xName = true
        · simp [h2, h3] at hc
        · simp [h2, h3] at hc
          obtain ⟨hvw, hdu, hui⟩ := hc
          subst hvw
          subst hdu
          subst hui
          exact ⟨rfl, rfl, h1, by simpa using h2, rfl, by simpa using h3⟩
  · rintro ⟨hvw, hdu, hne, hq, hui, hux⟩
    subst hvw
    subst hdu
    subst hui
    unfold testCandidate
    simp [hne, hq, hux]

theorem detectLoop_eq_none_iff (expr : Expr) (l : List Expr) :
    detectLoop expr l = none ↔ ∀ v ∈ l, testCandidate expr v = none := by
  induction l with
  | nil => simp [detectLoop]
  | cons a rest ih =>
    unfold detectLoop
    cases h : testCandidate expr a with
    | some t => simp [h]
    | none => simp [h, ih]

theorem detectLoop_eq_some_iff (expr : Expr) (l : List Expr) (t : Expr × Expr × Expr) :
    detectLoop expr l = some t ↔
      ∃ i, ∃ v, l[i]? = some v ∧ testCandidate expr v = some t ∧
        ∀ u_0 ∈ l.take i, testCandidate expr u_0 = none := by
  induction l with
  | nil => simp [detectLoop]
  | cons a rest ih =>
    unfold detectLoop
    cases h : testCandidate expr a with
    | some t2 =>
      simp only [h]
      constructor
      · intro he
        refine ⟨0, a, by simp, ?_, by simp⟩
        rw [h, he]
      · rintro ⟨i, v, hv, htv, hbefore⟩
        cases i with
        | zero =>
          simp at hv
          subst hv
          rw [htv] at h
          simp at h
          rw [h]
        | succ j =>
          have ha : a ∈ (a :: rest).take (j + 1) := by simp
          rw [hbefore a ha] at h
          cases h
    | none =>
      simp only [h, ih]
      constructor
      · rintro ⟨i, v, hv, htv, hbefore⟩
        refine ⟨i + 1, v, by simpa using hv, htv, ?_⟩
        intro u_0 hu
        simp only [List.take_succ_cons, List.mem_cons] at hu
        rcases hu with rfl | hu
        · exact h
        · exact hbefore u_0 hu
      · rintro ⟨i, v, hv, htv, hbefore⟩
        cases i with
        | zero =>
          simp at hv
          subst hv
          rw [htv] at h
          cases h
        | succ j =>
          refine ⟨j, v, by simpa using hv, htv, ?_⟩
          intro u_0 hu
          exact hbefore u_0 (by simp [hu])

theorem detect_some_mem (expr : Expr) (t : Expr × Expr × Expr)
    (h : detect_u_substitution expr = some t) :
    ∃ v ∈ harvestCandidates expr, testCandidate expr v = some t := by
  unfold detect_u_substitution at h
  by_cases hm : isMul expr = true
  · rw [if_pos hm] at h
    rcases (detectLoop_eq_some_iff expr (harvestCandidates expr) t).mp h with
      ⟨i, v, hv, htv, _⟩
    exact ⟨v, List.getElem?_mem hv, htv⟩
  · rw [if_neg hm] at h
    cases h

theorem sympify_of_parseOf {s : String} {e : Expr} (hp : parseOf s = some e) :
    sympify s = Except.ok e := by
  unfold parseOf at hp
  cases h : sympify s with
  | error m => rw [h] at hp; cases hp
  | ok e2 =>
    rw [h] at hp
    simp only [Except.toOption] at hp
    cases hp
    rfl

theorem append_ne_empty_left {a : String} (b : String) (ha : a.length ≠ 0) :
    a ++ b ≠ "" := by
  intro h
  have h2 := congrArg String.length h
  rw [String.length_append] at h2
  have h0 : ("" : String).length = 0 := rfl
  omega

theorem compute_fields (t1 t2 : Q) (ts s : String) :
    (compute t1 t2 ts s).given = (computeCore s).given ∧
    (compute t1 t2 ts s).method = (computeCore s).method ∧
    (compute t1 t2 ts s).steps = (computeCore s).steps ∧
    (compute t1 t2 ts s).final_answer = (computeCore s).final_answer ∧
    (compute t1 t2 ts s).verification = (computeCore s).verification ∧
    (compute t1 t2 ts s).is_success = (computeCore s).is_success ∧
    (compute t1 t2 ts s).error_message = (computeCore s).error_message := by
  unfold compute
  by_cases h : (computeCore s).is_success = true <;> simp [h]

theorem computeCore_outcome (s : String) :
    (computeCore s).is_success = true ∨
      ((computeCore s).is_success = false ∧ (computeCore s).error_message ≠ "") := by
  unfold computeCore
  split
  · right
    exact ⟨rfl, append_ne_empty_left _ (by decide)⟩
  · split
    · left
      rfl
    · dsimp only
      split
      · right
        exact ⟨rfl, append_ne_empty_left _ (by decide)⟩
      · left
        rfl

theorem computeCore_of_err {s : String} {m : String} (hp : sympify s = Except.error m) :
    computeCore s = { is_success := false, error_message := errIntro ++ m } := by
  unfold computeCore
  rw [hp]

theorem computeCore_of_sub {s : String} {e w du ui : Expr} (hp : sympify s = Except.ok e)
    (hd : detect_u_substitution e = some (w, du, ui)) :
    computeCore s =
      finishSuccess (givenOf e) subMethodLabel
        ([identifyStep e] ++
          subStepsList w du ui (integrate ui uName) (subsE (integrate ui uName) uSymE w))
        (subsE (integrate ui uName) uSymE w) e := by
  unfold computeCore
  rw [hp]
  dsimp only
  rw [hd]

theorem computeCore_of_basic_fail {s : String} {e : Expr} (hp : sympify s = Except.ok e)
    (hd : detect_u_substitution e = none) (hI : isIntegralTop (integrate e xName) = true) :
    computeCore s =
      { given := givenOf e
        method := basicMethodLabel
        steps := [identifyStep e]
        is_success := false
        error_message := errIntro ++ advErrMsg } := by
  unfold computeCore
  rw [hp]
  dsimp only
  rw [hd]
  dsimp only
  rw [if_pos hI]

theorem computeCore_of_basic_ok {s : String} {e : Expr} (hp : sympify s = Except.ok e)
    (hd : detect_u_substitution e = none) (hI : isIntegralTop (integrate e xName) = false) :
    computeCore s =
      finishSuccess (givenOf e) basicMethodLabel
        ([identifyStep e] ++ [evalStep (integrate e xName), addConstStep])
        (integrate e xName) e := by
  unfold computeCore
  rw [hp]
  dsimp only
  rw [hd]
  dsimp only
  rw [if_neg (by rw [hI]; exact Bool.false_ne_true)]

theorem finishSuccess_fields (g m : String) (stps : List String) (ad e : Expr) :
    (finishSuccess g m stps ad e).given = g ∧
    (finishSuccess g m stps ad e).method = m ∧
    (finishSuccess g m stps ad e).steps = stps ∧
    (finishSuccess g m stps ad e).final_answer = latexOf ad ++ " + C" ∧
    (finishSuccess g m stps ad e).verification =
      verifText ad (diff ad xName) ++
        (if simplify (.add e (.mul (.const (-1)) (diff ad xName))) = .const 0
          then verifSuccessTag else verifWarnTag) ∧
    (finishSuccess g m stps ad e).is_success = true := by
  unfold finishSuccess
  exact ⟨rfl, rfl, rfl, rfl, rfl, rfl⟩

theorem finishSuccess_verification (g m : String) (stps : List String) (ad e : Expr) :
    (finishSuccess g m stps ad e).verification =
      verifText ad (diff ad xName) ++
        (if simplify (.add e (.mul (.const (-1)) (diff ad xName))) = .const 0
          then verifSuccessTag else verifWarnTag) := rfl

theorem givenOf_ne_empty (e : Expr) : givenOf e ≠ "" := by
  unfold givenOf
  intro h
  have h2 := congrArg String.length h
  rw [String.length_append, String.length_append] at h2
  have hA : givenPrefixStr.length = 14 := by decide
  have hB : ("" : String).length = 0 := rfl
  omega

/-!
The claims.
-/

/-- C1: the spec's substitution scenario claims that for the input
`x*sin(x**2)` the engine detects a substitution with `u = x**2` and
labels the result as substitution.  The code does not: the candidate
`x**2` is rejected at the ratio test, because the simplified ratio
`x*sin(x**2) / (2*x) = sin(x**2)/2` still contains `x` (the code checks
the un-substituted ratio, contradicting its own comment that describes
this very input as the matching example).  The computation instead runs
through the basic branch, which still produces an answer equivalent to
`-cos(x**2)/2 + C` with successful verification, but with the
basic-pattern method label and no substitution steps. -/
theorem C1_substitution_scenario_eval :
    parseOf subScenarioInput = some subScenarioExpr ∧
    detect_u_substitution subScenarioExpr = none ∧
    (computeCore subScenarioInput).method = basicMethodLabel ∧
    (computeCore subScenarioInput).method ≠ subMethodLabel ∧
    (computeCore subScenarioInput).is_success = true ∧
    (computeCore subScenarioInput).final_answer =
      latexOf (antiderivativeOf subScenarioExpr) ++ " + C" ∧
    simplify (.add (antiderivativeOf subScenarioExpr)
      (.mul (.const (-1)) subScenarioAnswer)) = .const 0 ∧
    residualOf subScenarioExpr = .const 0 ∧
    (computeCore subScenarioInput).verification =
      verifText (antiderivativeOf subScenarioExpr)
          (diff (antiderivativeOf subScenarioExpr) xName) ++ verifSuccessTag := by
  decide

/-- C2: for a top-level product, the detector tests the harvested
candidates in order; a returned triple is exactly the first candidate
that passes the three tests (nonzero derivative, variable-free
simplified ratio, variable-free simplified rewritten integrand), all
earlier candidates being rejected by one of the tests; and the detector
returns no candidate exactly when every candidate is rejected. -/
theorem C2_candidate_tests (expr : Expr) (hm : isMul expr = true) :
    (∀ w du ui : Expr,
      detect_u_substitution expr = some (w, du, ui) ↔
        ∃ i, (harvestCandidates expr)[i]? = some w ∧
          acceptsTriple expr w du ui ∧
          ∀ v ∈ (harvestCandidates expr).take i, rejectsCandidate expr v) ∧
    (detect_u_substitution expr = none ↔
      ∀ v ∈ harvestCandidates expr, rejectsCandidate expr v) := by
  constructor
  · intro w du ui
    unfold detect_u_substitution
    rw [if_pos hm, detectLoop_eq_some_iff]
    constructor
    · rintro ⟨i, v, hv, htv, hb⟩
      rcases (testCandidate_eq_some_iff expr v w du ui).mp htv with ⟨rfl, hacc⟩
      exact ⟨i, hv, hacc, fun v2 hv2 => (testCandidate_eq_none_iff expr v2).mp (hb v2 hv2)⟩
    · rintro ⟨i, hv, hacc, hb⟩
      exact ⟨i, w, hv, (testCandidate_eq_some_iff expr w w du ui).mpr ⟨rfl, hacc⟩,
        fun v2 hv2 => (testCandidate_eq_none_iff expr v2).mpr (hb v2 hv2)⟩
  · unfold detect_u_substitution
    rw [if_pos hm, detectLoop_eq_none_iff]
    constructor <;> intro h v hv
    · exact (testCandidate_eq_none_iff expr v).mp (h v hv)
    · exact (testCandidate_eq_none_iff expr v).mpr (h v hv)

theorem C2_candidate_tests_witness :
    detect_u_substitution subScenarioExpr = none :=
  ((C2_candidate_tests subScenarioExpr (by decide)).2).mpr (by decide)

/-- C3: compute never propagates an exception: for every input string
(and every external clock input) the result is either a success, or a
failure with a populated error message; in particular the malformed
input `3x^^2` yields a failure result carrying the syntax-error
message. -/
theorem C3_never_raises :
    (∀ t1 t2 : Q, ∀ ts s : String,
      (compute t1 t2 ts s).is_success = true ∨
        ((compute t1 t2 ts s).is_success = false ∧
          (compute t1 t2 ts s).error_message ≠ "")) ∧
    (compute 0 1 tsSample malformedInput).is_success = false ∧
    (compute 0 1 tsSample malformedInput).error_message = errIntro ++ syntaxErr := by
  refine ⟨?_, by decide, by decide⟩
  intro t1 t2 ts s
  obtain ⟨_, _, _, _, _, hs, he⟩ := compute_fields t1 t2 ts s
  rw [hs, he]
  exact computeCore_outcome s

/-- C4 counterexample: the claim says an unevaluated integral from the
integration step is converted to a failure on every path, including the
substitution branch.  It is not: on the input
`sin(x*y)*(y*exp(-u**2)/sin(x*y) + y/sin(x*y))` the detector accepts the
candidate `x*y` with rewritten integrand `1 + exp(-u**2)`, the
substitution-branch integration step returns the unevaluated integral
construct, and compute nevertheless returns a success result (the
substitution branch performs no unevaluated-integral check). -/
theorem C4_substitution_branch_unchecked :
    parseOf unevalSubInput = some unevalSubExpr ∧
    detect_u_substitution unevalSubExpr = some (wXY, duY, unevalSubUi) ∧
    isIntegralTop (integrate unevalSubUi uName) = true ∧
    (compute 0 1 tsSample unevalSubInput).is_success = true ∧
    (compute 0 1 tsSample unevalSubInput).error_message = "" := by
  decide

/-- C4 amended: on the basic-pattern branch, whenever the algebra
engine's integration step returns an unevaluated integral construct,
compute returns a failure result whose message indicates that the
integral requires techniques beyond the supported patterns (the
substitution branch performs no such conversion). -/
theorem C4_basic_branch_unevaluated (t1 t2 : Q) (ts s : String) (e : Expr)
    (hp : parseOf s = some e) (hd : detect_u_substitution e = none)
    (hI : isIntegralTop (integrate e xName) = true) :
    (compute t1 t2 ts s).is_success = false ∧
    (compute t1 t2 ts s).error_message = errIntro ++ advErrMsg := by
  obtain ⟨_, _, _, _, _, hs, he⟩ := compute_fields t1 t2 ts s
  rw [hs, he, computeCore_of_basic_fail (sympify_of_parseOf hp) hd hI]
  exact ⟨rfl, rfl⟩

theorem C4_basic_branch_unevaluated_witness :
    (compute 0 1 tsSample unsupInput).is_success = false ∧
    (compute 0 1 tsSample unsupInput).error_message = errIntro ++ advErrMsg :=
  C4_basic_branch_unevaluated 0 1 tsSample unsupInput unsupExpr
    (by decide) (by decide) (by decide)

/-- C5: on every successful computation the verification text carries
the successful qualifier exactly when the simplified difference between
the integrand and the derivative of the computed antiderivative is
zero, and the warning qualifier otherwise (the modelled simplifier is
total, so no exception can arise during verification). -/
theorem C5_verifier_qualifier (s : String) (e : Expr) (hp : parseOf s = some e)
    (hs : (computeCore s).is_success = true) :
    (residualOf e = Expr.const 0 ∧
      (computeCore s).verification =
        verifText (antiderivativeOf e) (diff (antiderivativeOf e) xName) ++ verifSuccessTag) ∨
    (residualOf e ≠ Expr.const 0 ∧
      (computeCore s).verification =
        verifText (antiderivativeOf e) (diff (antiderivativeOf e) xName) ++ verifWarnTag) := by
  have hps := sympify_of_parseOf hp
  cases hd : detect_u_substitution e with
  | some t =>
    obtain ⟨w, du, ui⟩ := t
    have had : antiderivativeOf e = subsE (integrate ui uName) uSymE w := by
      unfold antiderivativeOf
      rw [hd]
    rw [computeCore_of_sub hps hd, finishSuccess_verification, ← had]
    have hrdef : simplify (.add e (.mul (.const (-1)) (diff (antiderivativeOf e) xName))) =
        residualOf e := rfl
    rw [hrdef]
    by_cases hr : residualOf e = Expr.const 0
    · left
      exact ⟨hr, by rw [if_pos hr]⟩
    · right
      exact ⟨hr, by rw [if_neg hr]⟩
  | none =>
    by_cases hI : isIntegralTop (integrate e xName) = true
    · rw [computeCore_of_basic_fail hps hd hI] at hs
      exact Bool.noConfusion hs
    · have hI2 : isIntegralTop (integrate e xName) = false := by
        simpa using hI
      have had : antiderivativeOf e = integrate e xName := by
        unfold antiderivativeOf
        rw [hd]
      rw [computeCore_of_basic_ok hps hd hI2, finishSuccess_verification, ← had]
      have hrdef : simplify (.add e (.mul (.const (-1)) (diff (antiderivativeOf e) xName))) =
          residualOf e := rfl
      rw [hrdef]
      by_cases hr : residualOf e = Expr.const 0
      · left
        exact ⟨hr, by rw [if_pos hr]⟩
      · right
        exact ⟨hr, by rw [if_neg hr]⟩

theorem C5_verifier_qualifier_witness :
    (residualOf baselineExpr = Expr.const 0 ∧
      (computeCore baselineInput).verification =
        verifText (antiderivativeOf baselineExpr)
          (diff (antiderivativeOf baselineExpr) xName) ++ verifSuccessTag) ∨
    (residualOf baselineExpr ≠ Expr.const 0 ∧
      (computeCore baselineInput).verification =
        verifText (antiderivativeOf baselineExpr)
          (diff (antiderivativeOf baselineExpr) xName) ++ verifWarnTag) :=
  C5_verifier_qualifier baselineInput baselineExpr (by decide) (by decide)

/-- C6: every candidate triple returned by the detector satisfies the
invariant that the rewritten integrand contains no occurrence of the
integration variable and that the derivative is not identically zero
(candidates failing the tests are skipped silently; the detector is a
total function and cannot raise). -/
theorem C6_candidate_invariant (expr w du ui : Expr)
    (h : detect_u_substitution expr = some (w, du, ui)) :
    hasSym ui xName = false ∧ du ≠ Expr.const 0 := by
  rcases detect_some_mem expr (w, du, ui) h with ⟨v, _, htv⟩
  rcases (testCandidate_eq_some_iff expr v w du ui).mp htv with
    ⟨rfl, _, hne, _, _, hux⟩
  exact ⟨hux, hne⟩

theorem C6_candidate_invariant_witness :
    hasSym captureUi xName = false ∧ duY ≠ Expr.const 0 :=
  C6_candidate_invariant captureExpr wXY duY captureUi (by decide)

/-- C7: the round-trip property fails on the code: for the input
`sin(x*y)*(y*u/sin(x*y) + y/sin(x*y))`, which already contains the
placeholder symbol `u`, the detector accepts the candidate
`(x*y, y, 1 + u)`; substituting `x*y` back for the placeholder in the
rewritten integrand captures the user's `u` as well, so the
reconstruction `(1 + x*y) * y` is not symbolically equal to the
original integrand `(1 + u) * y` — their simplified difference is
nonzero. -/
theorem C7_round_trip_capture :
    parseOf captureInput = some captureExpr ∧
    detect_u_substitution captureExpr = some (wXY, duY, captureUi) ∧
    simplify (.add (.mul (subsE captureUi uSymE wXY) duY)
      (.mul (.const (-1)) captureExpr)) ≠ .const 0 := by
  decide

/-- C8: the fields `final_answer`, `method` and `steps` of the result
do not depend on the external clock inputs (start instant, end instant,
timestamp), which only populate the summary: two calls on the same text
agree on those fields. -/
theorem C8_determinism (t1 t2 : Q) (ts : String) (r1 r2 : Q) (rs s : String) :
    (compute t1 t2 ts s).final_answer = (compute r1 r2 rs s).final_answer ∧
    (compute t1 t2 ts s).method = (compute r1 r2 rs s).method ∧
    (compute t1 t2 ts s).steps = (compute r1 r2 rs s).steps := by
  obtain ⟨_, hm1, hst1, hf1, _, _, _⟩ := compute_fields t1 t2 ts s
  obtain ⟨_, hm2, hst2, hf2, _, _, _⟩ := compute_fields r1 r2 rs s
  exact ⟨hf1.trans hf2.symm, hm1.trans hm2.symm, hst1.trans hst2.symm⟩

/-- C9: integrating `3*x**2 + 2*x` succeeds through the basic branch
with an antiderivative symbolically equal to `x**3 + x**2`, the final
answer is that antiderivative's display form with the constant
appended, the method label is the basic-pattern label, and the
verification carries the successful qualifier. -/
theorem C9_linearity_baseline :
    parseOf baselineInput = some baselineExpr ∧
    (computeCore baselineInput).is_success = true ∧
    (computeCore baselineInput).method = basicMethodLabel ∧
    (computeCore baselineInput).final_answer =
      latexOf (antiderivativeOf baselineExpr) ++ " + C" ∧
    simplify (.add (antiderivativeOf baselineExpr)
      (.mul (.const (-1)) baselineAnswer)) = .const 0 ∧
    (computeCore baselineInput).verification =
      verifText (antiderivativeOf baselineExpr)
        (diff (antiderivativeOf baselineExpr) xName) ++ verifSuccessTag := by
  decide

/-- C10: a failure result retains the fields populated before the
exception: whenever parsing succeeds, the result (on every path,
including failures) carries the rendered problem statement and the
identify step at the head of the step list; and when the failure comes
from an unevaluated integral on the basic branch, the basic-pattern
method label is retained while only the outcome fields are set by the
failure handler. -/
theorem C10_failure_retains_fields :
    (∀ s : String, ∀ e : Expr, parseOf s = some e →
      (computeCore s).given = givenOf e ∧
      (computeCore s).steps.head? = some (identifyStep e) ∧
      (computeCore s).given ≠ "") ∧
    (∀ s : String, ∀ e : Expr, parseOf s = some e →
      detect_u_substitution e = none →
      isIntegralTop (integrate e xName) = true →
      (computeCore s).method = basicMethodLabel ∧
      (computeCore s).is_success = false ∧
      (computeCore s).error_message = errIntro ++ advErrMsg ∧
      (computeCore s).steps = [identifyStep e] ∧
      (computeCore s).steps ≠ []) := by
  constructor
  · intro s e hp
    have hps := sympify_of_parseOf hp
    cases hd : detect_u_substitution e with
    | some t =>
      obtain ⟨w, du, ui⟩ := t
      rw [computeCore_of_sub hps hd]
      exact ⟨rfl, rfl, givenOf_ne_empty e⟩
    | none =>
      by_cases hI : isIntegralTop (integrate e xName) = true
      · rw [computeCore_of_basic_fail hps hd hI]
        exact ⟨rfl, rfl, givenOf_ne_empty e⟩
      · have hI2 : isIntegralTop (integrate e xName) = false := by
          simpa using hI
        rw [computeCore_of_basic_ok hps hd hI2]
        exact ⟨rfl, rfl, givenOf_ne_empty e⟩
  · intro s e hp hd hI
    rw [computeCore_of_basic_fail (sympify_of_parseOf hp) hd hI]
    exact ⟨rfl, rfl, rfl, rfl, List.cons_ne_nil _ _⟩

theorem C10_failure_retains_fields_witness :
    ((computeCore unsupInput).given = givenOf unsupExpr ∧
      (computeCore unsupInput).steps.head? = some (identifyStep unsupExpr) ∧
      (computeCore unsupInput).given ≠ "") ∧
    ((computeCore unsupInput).method = basicMethodLabel ∧
      (computeCore unsupInput).is_success = false ∧
      (computeCore unsupInput).error_message = errIntro ++ advErrMsg ∧
      (computeCore unsupInput).steps = [identifyStep unsupExpr] ∧
      (computeCore unsupInput).steps ≠ []) :=
  ⟨C10_failure_retains_fields.1 unsupInput unsupExpr (by decide),
    C10_failure_retains_fields.2 unsupInput unsupExpr (by decide) (by decide) (by decide)⟩

end IndefInt
